import Mathlib

/-!
Verification of the pyWinKeys script interpreter and command-dispatch engine.

This development shallowly embeds the Python sources:
  - `scripts/script_reader.py`  (quote-aware whitespace stripping, line-oriented
    script parsing into a name-keyed table of `(delay, command, params)` triples),
  - `scripts/script_executor.py` (sequential execution with delays, registry and
    arity checks),
  - `scripts/execution_api.py` and `winkeys/winkeys.py` (the command handlers and
    the key-code table / input backend).

Modelling conventions:
  - Python strings are `List Char`; lines of the input file are given without
    their trailing newline.
  - Machine side effects (sleeps, key hold/release, mouse events, and the one
    stderr diagnostic a claim depends on) are recorded as an event trace
    `List Ev`; functions return `(trace, result)`.
  - Python `None` returned where a bool is expected is modelled by
    `Option Bool` with `none`.
  - All definitions are executable, so concrete runs are settled by `decide`.
-/

namespace PyWinKeys

/-! ## Python string primitives -/

/-- Python `s.split(sep)` for a one-character separator: always returns at
least one (possibly empty) field, one more field per separator occurrence. -/
def splitPy (sep : Char) : List Char → List (List Char)
  | [] => [[]]
  | c :: rest =>
    match splitPy sep rest with
    | [] => [[c]]
    | s :: ss => if c = sep then [] :: s :: ss else (c :: s) :: ss

/-- Python `s.isdigit()` restricted to ASCII decimal digits (the only digits
occurring in script files): true iff the string is non-empty and every
character is `0`..`9`. -/
def pyIsdigit (l : List Char) : Bool :=
  !l.isEmpty && l.all Char.isDigit

/-- Python `int(s)` on an all-digits string. -/
def digitsToNat (l : List Char) : Nat :=
  l.foldl (fun n c => 10 * n + (c.toNat - 48)) 0

/-- First index `i ≥ start` with `l[i] = c`, if any. -/
def findFrom (c : Char) (l : List Char) (start : Nat) : Option Nat :=
  match (l.drop start).findIdx? (fun d => d = c) with
  | none => none
  | some j => some (start + j)

/-- Python `s.find(c, start)`: the first index `≥ start` holding `c`, or `-1`. -/
def findPy (c : Char) (l : List Char) (start : Nat) : Int :=
  match findFrom c l start with
  | none => -1
  | some i => (i : Int)

/-! ## `ScriptReader._contains_prefix` and `ScriptReader._remove_obsolete_characters` -/

/-- `ScriptReader._contains_prefix(prefix, line)`: false when the candidate is
longer than the line or the line is empty, else a character-by-character
comparison of the leading segment. -/
def contains_pfx (pfx l : List Char) : Bool :=
  if pfx.length > l.length || l.length == 0 then false
  else (List.range pfx.length).all fun i => pfx.get! i == l.get! i

/-- Python `string.whitespace`. -/
def wsChars : List Char := [' ', '\t', '\n', '\r', '\x0b', '\x0c']

/-- The loop of `ScriptReader._remove_obsolete_characters`, processing `line`
from index `i` with quoted-state `found` (`fuel` bounds the remaining
iterations so the recursion is structural).  At index `i` a `mark` character
toggles `found` only when `i ≠ 0` and the previous character is not a
backslash; the character is kept when (after the toggle) `found` holds or the
character is not one of `rm`. -/
def rmObsAux (mark : Char) (rm : List Char) (line : List Char) :
    Nat → Nat → Bool → List Char
  | 0, _, _ => []
  | fuel + 1, i, found =>
    if i < line.length then
      let c := line.get! i
      let found' :=
        if c == mark && decide (i ≠ 0) && (line.get! (i - 1) != '\\') then !found else found
      (if found' || (!found' && !(rm.contains c)) then [c] else []) ++
        rmObsAux mark rm line fuel (i + 1) found'
    else []

/-- `ScriptReader._remove_obsolete_characters(mark_char, rm_chars, line)`:
the `for i in range(0, len(line))` loop started at index 0 outside a group. -/
def remove_obsolete_characters (mark : Char) (rm : List Char) (line : List Char) :
    List Char :=
  rmObsAux mark rm line line.length 0 false

/-- The stripping applied to every line of a script file:
`_remove_obsolete_characters('"', string.whitespace, line)`. -/
def stripLine (line : List Char) : List Char :=
  remove_obsolete_characters '"' wsChars line

/-! ## `ScriptReader.load_scripts` -/

/-- One parsed script command: `(delay_ms, command, raw_params)`. -/
abbrev Cmd := Nat × List Char × List Char

/-- The script table: script name to ordered command list, in insertion order
(Python dicts preserve insertion order). -/
abbrev Table := List (List Char × List Cmd)

instance instDecEqTableEntry : DecidableEq (List Char × List Cmd) := inferInstance

instance instDecEqTable : DecidableEq Table := @instDecidableEqList _ instDecEqTableEntry

/-- Dictionary lookup by script name. -/
def lookupTbl (tbl : Table) (name : List Char) : Option (List Cmd) :=
  match tbl with
  | [] => none
  | e :: rest => if e.1 = name then some e.2 else lookupTbl rest name

/-- `scripts[s_name].append(cmd)`: extend the entry named `name`. -/
def appendCmd (tbl : Table) (name : List Char) (c : Cmd) : Table :=
  tbl.map fun e => if e.1 = name then (e.1, e.2 ++ [c]) else e

/-- The `---` tag prefix. -/
def dashes : List Char := ['-', '-', '-']

/-- Body-line field extraction of `load_scripts` (lines 121-140 of
`script_reader.py`): locate the two commas and the two quotes with Python
`find` (`-1` when absent), fail on the source's exact index condition, then
require an all-digits delay field and produce the
`(int(delay), command, params)` triple. -/
def parseBodyLine (temp : List Char) : Option Cmd :=
  let fs : Int := findPy ',' temp 0
  let ss : Int := findPy ',' temp (fs + 1).toNat
  let fp : Int := findPy '"' temp (ss + 1).toNat
  let sp : Int := findPy '"' temp (fp + 1).toNat
  if fs ≤ 0 ∨ ss ≤ 0 ∨ fp ≤ 0 ∨ sp ≤ 0 ∨ ss ≤ fs ∨ fp ≤ ss ∨ sp ≤ fp then
    none
  else
    let delay_str := temp.take fs.toNat
    let cmd_str := (temp.take ss.toNat).drop (fs.toNat + 1)
    let param_str := (temp.take sp.toNat).drop (fp.toNat + 1)
    if pyIsdigit delay_str then some (digitsToNat delay_str, cmd_str, param_str)
    else none

/-- The line loop of `ScriptReader.load_scripts`, carrying the dictionary so
far and the current script name (`""`/`[]` = no script open).  Returns the
final state, or `none` on the source's fatal parse errors (nameless tag,
duplicate name, invalid split indexes, non-digit delay). -/
def loadAux : Table → List Char → List (List Char) → Option (Table × List Char)
  | tbl, sname, [] => some (tbl, sname)
  | tbl, sname, l :: ls =>
    let temp := stripLine l
    if sname = [] then
      if contains_pfx dashes temp then
        if temp.length < 4 then none
        else
          let name := temp.drop 3
          if (lookupTbl tbl name).isSome then none
          else loadAux (tbl ++ [(name, [])]) name ls
      else loadAux tbl sname ls
    else
      if temp.length = 0 ∨ temp.head? = some '#' ∨ temp.head? = some '%' then
        loadAux tbl sname ls
      else if contains_pfx dashes temp then loadAux tbl [] ls
      else
        match parseBodyLine temp with
        | none => none
        | some c => loadAux (appendCmd tbl sname c) sname ls

/-- `ScriptReader.load_scripts` on the file's lines: run the loop from the
empty dictionary with no script open and return the dictionary (the final
current-name is dropped; an open script is simply left in the table). -/
def load_scripts (lines : List (List Char)) : Option Table :=
  (loadAux [] [] lines).map Prod.fst

/-! ## The winkeys input backend (`winkeys/winkeys.py`) -/

/-- Mouse buttons (`MouseKey` enum). -/
inductive MouseKey where
  | right
  | left
  | middle
deriving DecidableEq

/-- Observable side effects of the backend and executor: blocking sleeps, key
holds/releases by VK code, mouse button holds/releases, mouse moves, and the
stderr report of `ExecutionAPI.write` (the one diagnostic a claim mentions). -/
inductive Ev where
  | sleepMs (ms : Nat)
  | kHold (code : Nat)
  | kRelease (code : Nat)
  | mHold (btn : MouseKey)
  | mRelease (btn : MouseKey)
  | mMove (x y : Int) (relative : Bool)
  | reportWriteFail (c : Char) (seq : List Char)
deriving DecidableEq

/-- The primary-display size (`_SCREEN_WIDTH_PX`, `_SCREEN_HEIGHT_PX`),
queried from the OS at startup. -/
structure Env where
  width : Int
  height : Int

/-- `_add_sequence_keys(key_dict, keys, start)`: each key paired with
consecutive codes from `start`. -/
def addSequenceKeys (keys : List (List Char)) (start : Nat) : List (List Char × Nat) :=
  keys.zip (List.range' start keys.length)

/-- Single-character key names from a string of characters. -/
def singletonKeys (s : List Char) : List (List Char) :=
  s.map fun c => [c]

/-- The function-key names `F1`..`F24`. -/
def fKeyNames : List (List Char) :=
  ["F1", "F2", "F3", "F4", "F5", "F6", "F7", "F8", "F9", "F10",
   "F11", "F12", "F13", "F14", "F15", "F16", "F17", "F18",
   "F19", "F20", "F21", "F22", "F23", "F24"].map String.toList

/-- The manually entered special keys of `_win_key`. -/
def specialKeys : List (List Char × Nat) :=
  [("backspace".toList, 0x08), ("tab".toList, 0x09), ("enter".toList, 0x0D),
   ("shift".toList, 0x10), ("ctrl".toList, 0x11), ("alt".toList, 0x12),
   ("pause".toList, 0x13), ("caps".toList, 0x14), ("esc".toList, 0x1B),
   ("space".toList, 0x20), ("page-up".toList, 0x21), ("page-down".toList, 0x22),
   ("end".toList, 0x23), ("home".toList, 0x24), ("left".toList, 0x25),
   ("up".toList, 0x26), ("right".toList, 0x27), ("down".toList, 0x28),
   ("select".toList, 0x29), ("print".toList, 0x2A), ("execute".toList, 0x2B),
   ("prtscn".toList, 0x2C), ("insert".toList, 0x2D), ("delete".toList, 0x2E),
   ("win".toList, 0x5B), ("vol-mute".toList, 0xAD), ("vol-down".toList, 0xAE),
   ("vol-up".toList, 0xAF), ("media-next".toList, 0xB0), ("media-prev".toList, 0xB1),
   ("media-stop".toList, 0xB2), ("media_pp".toList, 0xB3)]

/-- The `_win_key` dictionary: digits from `0x30`, lower- and upper-case
letters both from `0x41`, `F1`..`F24` from `0x70`, then the special keys.
All key strings are distinct, so association-list order is immaterial. -/
def win_key : List (List Char × Nat) :=
  addSequenceKeys (singletonKeys "0123456789".toList) 0x30 ++
  addSequenceKeys (singletonKeys "abcdefghijklmnopqrstuvwxyz".toList) 0x41 ++
  addSequenceKeys (singletonKeys "ABCDEFGHIJKLMNOPQRSTUVWXYZ".toList) 0x41 ++
  addSequenceKeys fKeyNames 0x70 ++
  specialKeys

/-- `_get_hex_code(key)`: `_win_key.get(key, None)`. -/
def get_hex_code (key : List Char) : Option Nat :=
  match win_key.find? (fun e => e.1 == key) with
  | none => none
  | some e => some e.2

/-- The module constant `timeout = 5` (milliseconds) used as hold duration. -/
def timeout : Nat := 5

/-- `keyboard_press(key)`: resolve the key; on failure no input is sent; on
success hold, sleep the fixed duration, release. -/
def keyboard_press (key : List Char) : List Ev × Bool :=
  match get_hex_code key with
  | none => ([], false)
  | some code => ([Ev.kHold code, Ev.sleepMs timeout, Ev.kRelease code], true)

/-- The resolution loop of `keyboard_press_combo`: resolve each identifier,
failing on an unknown identifier or on a key code already in `handled_keys`
(the accumulated codes double as the handled set, since `handled_keys` is
always exactly the set of codes collected so far). -/
def collectCodes : List (List Char) → List Nat → Option (List Nat)
  | [], acc => some acc
  | k :: rest, acc =>
    match get_hex_code k with
    | none => none
    | some code => if acc.contains code then none else collectCodes rest (acc ++ [code])

/-- `keyboard_press_combo(key_set)`: remove spaces (`replace(" ", "")`), split
on `+`, resolve all identifiers rejecting unknown or duplicate key codes; then
hold every code in order, sleep once, and release in reversed order. -/
def keyboard_press_combo (key_set : List Char) : List Ev × Bool :=
  let keys := splitPy '+' (key_set.filter (fun c => c != ' '))
  match collectCodes keys [] with
  | none => ([], false)
  | some codes =>
    (codes.map Ev.kHold ++ [Ev.sleepMs timeout] ++ codes.reverse.map Ev.kRelease, true)

/-- `mouse_move(x, y, relative)`: reject coordinates outside
`[0, width] × [0, height]` without sending input, else send one move event. -/
def mouse_move (env : Env) (x y : Int) (relative : Bool) : List Ev × Bool :=
  if x < 0 ∨ x > env.width ∨ y < 0 ∨ y > env.height then ([], false)
  else ([Ev.mMove x y relative], true)

/-- `mouse_hold(mouse_btn)`. -/
def mouse_hold (btn : MouseKey) : List Ev × Bool :=
  ([Ev.mHold btn], true)

/-- `mouse_release(mouse_btn)`. -/
def mouse_release (btn : MouseKey) : List Ev × Bool :=
  ([Ev.mRelease btn], true)

/-! ## The command handlers (`scripts/execution_api.py`) -/

/-- `ExecutionAPI.press(sequence)`: delegates to `keyboard_press_combo`. -/
def api_press (sequence : List Char) : List Ev × Bool :=
  keyboard_press_combo sequence

/-- The character loop of `ExecutionAPI.write`: press each character in turn;
at the first character `keyboard_press` rejects, report it (with the whole
sequence) on stderr and return `False` without touching the rest. -/
def writeAux (seq : List Char) : List Char → List Ev × Bool
  | [] => ([], true)
  | c :: rest =>
    let r := keyboard_press [c]
    if r.2 then
      let r2 := writeAux seq rest
      (r.1 ++ r2.1, r2.2)
    else
      (r.1 ++ [Ev.reportWriteFail c seq], false)

/-- `ExecutionAPI.write(sequence)`. -/
def api_write (sequence : List Char) : List Ev × Bool :=
  writeAux sequence sequence

/-- `ExecutionAPI.move(x, y)`: if either argument is not all-digits, print a
diagnostic and fall through a bare `return` — the Python function yields
`None`, not `False` (modelled as `none`); otherwise delegate to `mouse_move`
with the converted integers and `relative = False`. -/
def api_move (env : Env) (x y : List Char) : List Ev × Option Bool :=
  if !(pyIsdigit x) || !(pyIsdigit y) then ([], none)
  else
    let r := mouse_move env (digitsToNat x) (digitsToNat y) false
    (r.1, some r.2)

/-- The cascaded `key.lower()` comparisons shared by `hold_mouse` and
`release_mouse`. -/
def parseMouseBtn (key : List Char) : Option MouseKey :=
  let kl := key.map Char.toLower
  if kl = "right".toList then some MouseKey.right
  else if kl = "middle".toList then some MouseKey.middle
  else if kl = "left".toList then some MouseKey.left
  else none

/-- `ExecutionAPI.hold_mouse(key)`. -/
def api_hold_mouse (key : List Char) : List Ev × Bool :=
  match parseMouseBtn key with
  | none => ([], false)
  | some b => mouse_hold b

/-- `ExecutionAPI.release_mouse(key)`. -/
def api_release_mouse (key : List Char) : List Ev × Bool :=
  match parseMouseBtn key with
  | none => ([], false)
  | some b => mouse_release b

/-! ## The executor (`scripts/script_executor.py`) -/

/-- The arity column of `ScriptExecutor._commands`. -/
def registry_arity (name : List Char) : Option Nat :=
  if name = "press".toList then some 1
  else if name = "write".toList then some 1
  else if name = "move".toList then some 2
  else if name = "hold_mouse".toList then some 1
  else if name = "release_mouse".toList then some 1
  else none

/-- The handler column of `ScriptExecutor._commands`, applied to the split
parameter fields (`self._commands[command[1]][1](*parameters)`).  Handlers
return `Option Bool`: `api_move` can yield Python `None`; the argument-shape
fallbacks are unreachable behind the executor's arity check. -/
def execCmd (env : Env) (name : List Char) (args : List (List Char)) :
    List Ev × Option Bool :=
  if name = "press".toList then
    match args with
    | [s] => let r := api_press s; (r.1, some r.2)
    | _ => ([], none)
  else if name = "write".toList then
    match args with
    | [s] => let r := api_write s; (r.1, some r.2)
    | _ => ([], none)
  else if name = "move".toList then
    match args with
    | [x, y] => api_move env x y
    | _ => ([], none)
  else if name = "hold_mouse".toList then
    match args with
    | [k] => let r := api_hold_mouse k; (r.1, some r.2)
    | _ => ([], none)
  else if name = "release_mouse".toList then
    match args with
    | [k] => let r := api_release_mouse k; (r.1, some r.2)
    | _ => ([], none)
  else ([], none)

/-- `ScriptExecutor._internal_execute(script)`: for each command sleep its
delay, abort with `False` if the name is not registered or the comma-split
parameter count differs from the registry arity, otherwise run the handler —
whose returned value the source discards — and continue; reaching the end of
the list yields `True`.  (The source's `len(command) != 3` guard cannot fire:
commands are triples by construction.) -/
def internal_execute (env : Env) : List Cmd → List Ev × Bool
  | [] => ([], true)
  | c :: rest =>
    let pre := [Ev.sleepMs c.1]
    match registry_arity c.2.1 with
    | none => (pre, false)
    | some ar =>
      let params := splitPy ',' c.2.2
      if params.length ≠ ar then (pre, false)
      else
        let h := execCmd env c.2.1 params
        let r := internal_execute env rest
        (pre ++ h.1 ++ r.1, r.2)

/-- `ScriptExecutor.execute(script_name)`: fail straight away when no scripts
are loaded (`self.scripts` is `None`), the table is empty, or the name is not
a key; otherwise run the named script. -/
def execute (env : Env) (scripts : Option Table) (script_name : List Char) :
    List Ev × Bool :=
  match scripts with
  | none => ([], false)
  | some tbl =>
    if tbl = [] then ([], false)
    else
      match lookupTbl tbl script_name with
      | none => ([], false)
      | some cmds => internal_execute env cmds

/-! ## Spec-side characterisation of body-line parsing (claim C1)

`bodyLineSpec` renders the specification's wording: locate the first comma,
the next comma after it, the first `"` after that second comma and the next
`"` after that; require all four to exist and to be strictly increasing in
that order, and the delay field to consist only of decimal digits (a field of
decimal digits is in particular non-empty, matching Python `isdigit`); then
produce `(int(delay), command, params)`. -/

/-- The body-line shape `DELAY,COMMAND,"PARAMS"` as the specification words
it (see the header above). -/
def bodyLineSpec (temp : List Char) : Option Cmd :=
  match findFrom ',' temp 0 with
  | none => none
  | some i1 =>
    match findFrom ',' temp (i1 + 1) with
    | none => none
    | some i2 =>
      match findFrom '"' temp (i2 + 1) with
      | none => none
      | some i3 =>
        match findFrom '"' temp (i3 + 1) with
        | none => none
        | some i4 =>
          let delay_str := temp.take i1
          if i1 < i2 ∧ i2 < i3 ∧ i3 < i4 ∧ pyIsdigit delay_str = true then
            some (digitsToNat delay_str,
              (temp.take i2).drop (i1 + 1), (temp.take i4).drop (i3 + 1))
          else none

/-! ## Position-wise characterisation of the whitespace stripper (claim C4) -/

/-- Whether the character at index `i` toggles the quoted state, as the source
implements it: it is the mark character, it is *not at index 0*, and the
previous character is not a backslash. -/
def togglesAt (mark : Char) (line : List Char) (i : Nat) : Bool :=
  line.get! i == mark && decide (i ≠ 0) && (line.get! (i - 1) != '\\')

/-- Number of toggling characters among indices `< i`. -/
def quotedCount (mark : Char) (line : List Char) (i : Nat) : Nat :=
  (List.range i).countP (togglesAt mark line)

/-- Whether index `i` survives the stripping: the quoted state right after
processing index `i` is odd, or the character is not a removable one. -/
def keepIdx (mark : Char) (rm : List Char) (line : List Char) (i : Nat) : Bool :=
  decide (quotedCount mark line (i + 1) % 2 = 1) || !(rm.contains (line.get! i))

/-- The toggling rule exactly as claim C4 words it: a `"` toggles the quoted
state unless immediately preceded by a backslash — with no special case for
index 0. -/
def togglesAtClaim (line : List Char) (i : Nat) : Bool :=
  line.get! i == '"' && (decide (i = 0) || (line.get! (i - 1) != '\\'))

/-- Survival of index `i` under claim C4's reading. -/
def keepIdxClaim (line : List Char) (i : Nat) : Bool :=
  decide ((List.range (i + 1)).countP (togglesAtClaim line) % 2 = 1) ||
    !(wsChars.contains (line.get! i))

/-- The whitespace stripping as claim C4 describes it. -/
def stripClaimC4 (line : List Char) : List Char :=
  ((List.range line.length).filter (keepIdxClaim line)).map (fun j => line.get! j)

/-! ## Executor characterisation (claim C2) -/

/-- A command passes the executor's structural checks: its name is registered
and its raw parameters, split on `,`, have exactly the registered arity. -/
def structOk (c : Cmd) : Bool :=
  match registry_arity c.2.1 with
  | none => false
  | some ar => (splitPy ',' c.2.2).length == ar

/-- The events of one structurally valid command: its pre-delay sleep followed
by whatever its handler emits. -/
def cmdTrace (env : Env) (c : Cmd) : List Ev :=
  Ev.sleepMs c.1 :: (execCmd env c.2.1 (splitPy ',' c.2.2)).1

/-! ## `press` combination characterisation (claim C5) -/

/-- Resolution of a whole identifier list through the key table: the list of
key codes when every identifier is known, `none` otherwise. -/
def resolveAll : List (List Char) → Option (List Nat)
  | [] => some []
  | k :: rest =>
    match get_hex_code k, resolveAll rest with
    | some c, some cs => some (c :: cs)
    | _, _ => none

/-- The behaviour claim C5 asserts: identifiers are obtained by deleting
backslashes *and* spaces before splitting on `+`, and the combination
succeeds exactly when every identifier is known and no *identifier* is
repeated. -/
def comboClaimOk (key_set : List Char) : Bool :=
  let ids := splitPy '+' (key_set.filter (fun c => c != ' ' && c != '\\'))
  ids.all (fun k => (get_hex_code k).isSome) && decide ids.Nodup

/-! ## All-or-nothing loading (claim C3) -/

/-- The scripts a text declares, read off the specification's boundary rules
alone (a `---` line while no script is open opens a script named by the rest
of the line; while open, blank and `#`/`%` lines are skipped and a `---` line
closes; anything else is a body line and leaves the script open).  This scan
never fails; it is compared against the table the parser actually returns. -/
def declaredScriptNames : Bool → List (List Char) → List (List Char)
  | _, [] => []
  | true, l :: ls =>
    let temp := stripLine l
    if temp.length = 0 ∨ temp.head? = some '#' ∨ temp.head? = some '%' then
      declaredScriptNames true ls
    else if contains_pfx dashes temp then declaredScriptNames false ls
    else declaredScriptNames true ls
  | false, l :: ls =>
    let temp := stripLine l
    if contains_pfx dashes temp then temp.drop 3 :: declaredScriptNames true ls
    else declaredScriptNames false ls

/-! ## Theorems -/

example : get_hex_code "a".toList = some 0x41 := by decide

example : get_hex_code "A".toList = some 0x41 := by decide

example : get_hex_code "ctrl".toList = some 0x11 := by decide

example : get_hex_code "F13".toList = some (0x70 + 12) := by decide

example : (keyboard_press_combo "ctrl + a".toList).2 = true := by decide

example : (keyboard_press_combo "a+A".toList).2 = false := by decide

example : (keyboard_press_combo "\\a".toList).2 = false := by decide

example :
    api_write "a9".toList =
      ([Ev.kHold 0x41, Ev.sleepMs 5, Ev.kRelease 0x41,
        Ev.kHold 0x39, Ev.sleepMs 5, Ev.kRelease 0x39], true) := by decide

example : api_move ⟨1920, 1080⟩ "a".toList "5".toList = ([], none) := by decide

example :
    api_move ⟨1920, 1080⟩ "10".toList "5000".toList = ([], some false) := by decide

example : stripLine "  5 , press , \"a b\"  ".toList = "5,press,\"a b\"".toList := by decide

example : parseBodyLine "5,press,\"a\"".toList = some (5, "press".toList, "a".toList) := by
  decide

example : parseBodyLine "abc,press,\"a\"".toList = none := by decide

example :
    load_scripts ["---A".toList, "0,press,\"ctrl+c\"".toList, "---".toList] =
      some [("A".toList, [(0, "press".toList, "ctrl+c".toList)])] := by decide

theorem findFrom_start_le {c : Char} {l : List Char} {s i : Nat}
    (h : findFrom c l s = some i) : s ≤ i := by
  unfold findFrom at h
  cases hf : (l.drop s).findIdx? (fun d => d = c) with
  | none => rw [hf] at h; cases h
  | some j => rw [hf] at h; cases h; omega

/-- The source's index arithmetic (`find` returning `-1`, the seven-way
`<= 0` / ordering rejection) computes exactly the specification's view of a
body line.  The one place the two presentations differ on paper — a first
comma at index 0, which the source rejects as an invalid split index — is a
line with an empty delay field, which the specification's digits requirement
rejects as well. -/
theorem parseBodyLine_eq_bodyLineSpec (temp : List Char) :
    parseBodyLine temp = bodyLineSpec temp := by
  unfold parseBodyLine bodyLineSpec findPy
  cases h1 : findFrom ',' temp 0 with
  | none => simp
  | some i1 =>
    dsimp only
    have t1 : ((i1 : Int) + 1).toNat = i1 + 1 := by omega
    rw [t1]
    cases h2 : findFrom ',' temp (i1 + 1) with
    | none => simp
    | some i2 =>
      have b2 := findFrom_start_le h2
      have t2 : ((i2 : Int) + 1).toNat = i2 + 1 := by omega
      dsimp only
      rw [t2]
      cases h3 : findFrom '"' temp (i2 + 1) with
      | none => simp
      | some i3 =>
        have b3 := findFrom_start_le h3
        have t3 : ((i3 : Int) + 1).toNat = i3 + 1 := by omega
        dsimp only
        rw [t3]
        cases h4 : findFrom '"' temp (i3 + 1) with
        | none => simp
        | some i4 =>
          have b4 := findFrom_start_le h4
          dsimp only
          by_cases hz : i1 = 0
          · subst hz
            simp [pyIsdigit]
          · have hcond : ¬((i1 : Int) ≤ 0 ∨ (i2 : Int) ≤ 0 ∨ (i3 : Int) ≤ 0 ∨
                (i4 : Int) ≤ 0 ∨ (i2 : Int) ≤ (i1 : Int) ∨ (i3 : Int) ≤ (i2 : Int) ∨
                (i4 : Int) ≤ (i3 : Int)) := by omega
            have hinc : i1 < i2 ∧ i2 < i3 ∧ i3 < i4 := by omega
            simp only [if_neg hcond, Int.toNat_natCast]
            by_cases hd : pyIsdigit (temp.take i1) = true
            · simp [hd, hinc]
            · simp [hd, hinc]

/-- C1: while a script is open, a consulted body line (non-empty after
stripping, not a `#`/`%` comment, not a `---` tag) is parsed exactly as the
specification describes — four index lookups (first comma, next comma, first
quote after it, next quote after that), strictly increasing, all-digits delay
— appending the `(int(delay), command, params)` triple to the open script on
success, and failing the entire parse (the whole load returns `none`,
whatever lines remain) on a missing or out-of-order index or a non-digit
delay. -/
theorem c1_body_line_parse (tbl : Table) (sname : List Char) (l : List Char)
    (rest : List (List Char)) (hs : sname ≠ [])
    (h0 : (stripLine l).length ≠ 0)
    (hc : ¬((stripLine l).head? = some '#' ∨ (stripLine l).head? = some '%'))
    (hd : contains_pfx dashes (stripLine l) = false) :
    loadAux tbl sname (l :: rest) =
      match bodyLineSpec (stripLine l) with
      | none => none
      | some c => loadAux (appendCmd tbl sname c) sname rest := by
  rw [loadAux, ← parseBodyLine_eq_bodyLineSpec]
  rw [if_neg hs, if_neg (by push_neg at hc ⊢; exact ⟨h0, hc.1, hc.2⟩), if_neg (by simp [hd])]

theorem c1_body_line_parse_witness :
    loadAux [("A".toList, [])] "A".toList ["5,press,\"a\"".toList] =
      some ([("A".toList, [(5, "press".toList, "a".toList)])], "A".toList) := by
  rw [c1_body_line_parse [("A".toList, [])] "A".toList "5,press,\"a\"".toList []
    (by decide) (by decide) (by decide) (by decide)]
  decide

theorem quotedCount_succ (mark : Char) (line : List Char) (i : Nat) :
    quotedCount mark line (i + 1) =
      quotedCount mark line i + (if togglesAt mark line i then 1 else 0) := by
  simp [quotedCount, List.range_succ, List.countP_append, List.countP_cons]

theorem decide_mod_two_succ (q : Nat) :
    decide ((q + 1) % 2 = 1) = !decide (q % 2 = 1) := by
  rcases Nat.mod_two_eq_zero_or_one q with hq | hq <;> simp [Nat.add_mod, hq]

theorem rmObsAux_eq_filter (mark : Char) (rm : List Char) (line : List Char) :
    ∀ fuel i found, line.length ≤ fuel + i →
      found = decide (quotedCount mark line i % 2 = 1) →
      rmObsAux mark rm line fuel i found =
        ((List.range' i (line.length - i)).filter (keepIdx mark rm line)).map
          (fun j => line.get! j) := by
  intro fuel
  induction fuel with
  | zero =>
    intro i found hle hf
    have h0 : line.length - i = 0 := by omega
    rw [h0]
    simp [rmObsAux]
  | succ fuel ih =>
    intro i found hle hf
    rw [rmObsAux]
    by_cases hi : i < line.length
    · rw [if_pos hi]
      dsimp only
      have hf' :
          (if line.get! i == mark && decide (i ≠ 0) && (line.get! (i - 1) != '\\') then
              !found else found) =
            decide (quotedCount mark line (i + 1) % 2 = 1) := by
        rw [show (line.get! i == mark && decide (i ≠ 0) && (line.get! (i - 1) != '\\')) =
              togglesAt mark line i from rfl,
          quotedCount_succ]
        cases ht : togglesAt mark line i
        · simp [hf]
        · simp [hf, decide_mod_two_succ]
      rw [hf', ih (i + 1) _ (by omega) rfl]
      have hr : List.range' i (line.length - i) =
          i :: List.range' (i + 1) (line.length - (i + 1)) := by
        rw [show line.length - i = (line.length - (i + 1)) + 1 by omega]
        rfl
      rw [hr]
      cases hD : decide (quotedCount mark line (i + 1) % 2 = 1) <;>
        cases hmem : rm.contains (line.get! i) <;>
          simp_all [List.filter_cons, keepIdx]
    · rw [if_neg hi]
      have h0 : line.length - i = 0 := by omega
      rw [h0]
      simp

/-- C4, amended: the stripping keeps exactly the characters that are not
removable (all non-whitespace, in particular every quote) together with the
whitespace lying inside a quoted span, in their original order — where a `"`
toggles the quoted state unless it is immediately preceded by a backslash
*or stands at index 0 of the line* (the source's escape test `i != 0 and
line[i-1] != '\\'` never lets the very first character toggle). -/
theorem c4_strip_characterisation (line : List Char) :
    stripLine line =
      ((List.range line.length).filter (keepIdx '"' wsChars line)).map
        (fun j => line.get! j) := by
  have h := rmObsAux_eq_filter '"' wsChars line line.length 0 false (by omega)
    (by simp [quotedCount])
  simpa [stripLine, remove_obsolete_characters, List.range_eq_range'] using h

/-- C4 as stated is false: on the line `" a"` the leading quote stands at
index 0, so the source never toggles on it and strips the space
(result `"a"`), while the claim's rule toggles on it and keeps the space
(result `" a"`). -/
theorem c4_counterexample :
    stripLine ['"', ' ', 'a', '"'] ≠ stripClaimC4 ['"', ' ', 'a', '"'] := by decide

/-- C2: the executor processes commands in order; each structurally valid
prefix command contributes its sleep and its handler's events (the handler's
returned success value is never consulted, so a handler failure does not
abort the run); at the first structural failure — unknown name or wrong
comma-split field count — only that command's sleep is still performed, the
remaining commands contribute nothing, and the run fails; the run succeeds
exactly when every command is structurally valid. -/
theorem c2_executor_run (env : Env) (cmds : List Cmd) :
    internal_execute env cmds =
      (((cmds.takeWhile structOk).map (cmdTrace env)).flatten ++
        (match (cmds.dropWhile structOk).head? with
         | none => []
         | some c => [Ev.sleepMs c.1]),
       cmds.all structOk) := by
  induction cmds with
  | nil => rfl
  | cons c rest ih =>
    rw [internal_execute]
    cases hr : registry_arity c.2.1 with
    | none =>
      have hs : structOk c = false := by simp [structOk, hr]
      simp [List.takeWhile_cons, List.dropWhile_cons, hs]
    | some ar =>
      by_cases ha : (splitPy ',' c.2.2).length = ar
      · have hs : structOk c = true := by simp [structOk, hr, ha]
        simp [List.takeWhile_cons, List.dropWhile_cons, hs, ha, ih, cmdTrace]
      · have hs : structOk c = false := by simp [structOk, hr, ha]
        simp [List.takeWhile_cons, List.dropWhile_cons, hs, ha]

/-! ## `write` characterisation (claim C6) -/

theorem writeAux_spec (seq : List Char) : ∀ l : List Char,
    writeAux seq l =
      (((l.takeWhile fun c => (get_hex_code [c]).isSome).map
          (fun c => (keyboard_press [c]).1)).flatten ++
        (match (l.dropWhile fun c => (get_hex_code [c]).isSome).head? with
         | none => []
         | some c => [Ev.reportWriteFail c seq]),
       l.all fun c => (get_hex_code [c]).isSome) := by
  intro l
  induction l with
  | nil => rfl
  | cons c rest ih =>
    rw [writeAux]
    cases hx : get_hex_code [c] with
    | none =>
      have hkp : keyboard_press [c] = ([], false) := by simp [keyboard_press, hx]
      simp [hkp, List.takeWhile_cons, List.dropWhile_cons, hx]
    | some code =>
      have hkp : keyboard_press [c] =
          ([Ev.kHold code, Ev.sleepMs timeout, Ev.kRelease code], true) := by
        simp [keyboard_press, hx]
      simp [hkp, List.takeWhile_cons, List.dropWhile_cons, hx, ih]

/-- C6: `write` presses (hold, fixed wait, release) each character of the
sequence individually and in order as long as each resolves to a key code; at
the first unresolvable character it emits no key events for it, reports that
character (and the sequence) on stderr, and returns failure without touching
any later character; it returns success exactly when every character
resolves. -/
theorem c6_write_per_character (seq : List Char) :
    api_write seq =
      (((seq.takeWhile fun c => (get_hex_code [c]).isSome).map
          (fun c => (keyboard_press [c]).1)).flatten ++
        (match (seq.dropWhile fun c => (get_hex_code [c]).isSome).head? with
         | none => []
         | some c => [Ev.reportWriteFail c seq]),
       seq.all fun c => (get_hex_code [c]).isSome) :=
  writeAux_spec seq seq

theorem collectCodes_spec : ∀ (keys : List (List Char)) (acc : List Nat),
    acc.Nodup →
    collectCodes keys acc =
      match resolveAll keys with
      | none => none
      | some cs => if (acc ++ cs).Nodup then some (acc ++ cs) else none := by
  intro keys
  induction keys with
  | nil => intro acc hacc; simp [collectCodes, resolveAll, hacc]
  | cons k rest ih =>
    intro acc hacc
    rw [collectCodes, resolveAll]
    cases hx : get_hex_code k with
    | none => simp
    | some code =>
      dsimp only
      by_cases hmem : acc.contains code
      · have hin : code ∈ acc := by simpa using hmem
        rw [if_pos hmem]
        cases hrest : resolveAll rest with
        | none => simp
        | some cs =>
          have hnd : ¬(acc ++ code :: cs).Nodup := by
            rw [List.nodup_append]
            rintro ⟨-, -, hdisj⟩
            exact hdisj hin (by simp)
          simp [hnd]
      · rw [if_neg hmem]
        have hin : code ∉ acc := by simpa using hmem
        have hdisj : acc.Disjoint [code] := by
          intro a ha hc
          simp only [List.mem_singleton] at hc
          subst hc
          exact hin ha
        have hacc2 : (acc ++ [code]).Nodup := by
          rw [List.nodup_append]
          exact ⟨hacc, List.nodup_singleton code, hdisj⟩
        rw [ih (acc ++ [code]) hacc2]
        cases hrest : resolveAll rest with
        | none => simp
        | some cs =>
          have he : (acc ++ [code]) ++ cs = acc ++ code :: cs := by simp
          dsimp only
          rw [he]

/-- C5, amended: `press` removes spaces only (a backslash is kept and becomes
part of its identifier), splits on `+`, and resolves every identifier through
the key table; it fails — holding nothing — if some identifier is unknown or
resolves to a key code already produced by an earlier identifier of the same
combination (so `a+A`, two distinct identifiers with one key code, fails);
otherwise it holds all the codes in the order given, sleeps the fixed hold
duration once, and releases them in reverse order, returning success. -/
theorem c5_press_combo_characterisation (key_set : List Char) :
    keyboard_press_combo key_set =
      match resolveAll (splitPy '+' (key_set.filter (fun c => c != ' '))) with
      | none => ([], false)
      | some codes =>
        if codes.Nodup then
          (codes.map Ev.kHold ++ [Ev.sleepMs timeout] ++ codes.reverse.map Ev.kRelease,
            true)
        else ([], false) := by
  rw [keyboard_press_combo, collectCodes_spec _ [] List.nodup_nil]
  cases hm : resolveAll (splitPy '+' (key_set.filter (fun c => c != ' '))) with
  | none => simp
  | some codes => by_cases hnd : codes.Nodup <;> simp [hnd]

/-- C5 as stated is false on two counts: `press("\a")` should succeed under
the claim (the backslash being ignored leaves the known identifier `a`) but
the source keeps the backslash, fails to resolve `\a`, and fails; and
`press("a+A")` should succeed under the claim (two distinct known
identifiers) but the source rejects it because `a` and `A` resolve to the
same key code. -/
theorem c5_counterexample :
    comboClaimOk "\\a".toList = true ∧ (keyboard_press_combo "\\a".toList).2 = false ∧
      comboClaimOk "a+A".toList = true ∧
      (keyboard_press_combo "a+A".toList).2 = false := by
  decide

theorem not_isEmpty_of_ne_nil {α : Type} {l : List α} (h : l ≠ []) :
    (!l.isEmpty) = true := by
  cases l with
  | nil => exact absurd rfl h
  | cons a t => rfl

theorem appendCmd_map_fst (tbl : Table) (name : List Char) (c : Cmd) :
    (appendCmd tbl name c).map Prod.fst = tbl.map Prod.fst := by
  induction tbl with
  | nil => rfl
  | cons e rest ih =>
    by_cases he : e.1 = name <;> simp [appendCmd, he] <;> simpa [appendCmd] using ih

theorem loadAux_map_fst : ∀ (ls : List (List Char)) (tbl : Table) (sname : List Char)
    (tbl2 : Table) (sn2 : List Char),
    loadAux tbl sname ls = some (tbl2, sn2) →
    tbl2.map Prod.fst = tbl.map Prod.fst ++ declaredScriptNames (!sname.isEmpty) ls := by
  intro ls
  induction ls with
  | nil =>
    intro tbl sname tbl2 sn2 h
    simp only [loadAux, Option.some.injEq, Prod.mk.injEq] at h
    obtain ⟨h1, h2⟩ := h
    subst h1
    simp [declaredScriptNames]
  | cons l rest ih =>
    intro tbl sname tbl2 sn2 h
    rw [loadAux] at h
    by_cases hs : sname = []
    · subst hs
      rw [if_pos rfl] at h
      simp only [List.isEmpty_nil, Bool.not_true]
      by_cases hp : contains_pfx dashes (stripLine l) = true
      · rw [if_pos hp] at h
        by_cases hlen : (stripLine l).length < 4
        · rw [if_pos hlen] at h; cases h
        · rw [if_neg hlen] at h
          dsimp only at h
          by_cases hdup : (lookupTbl tbl ((stripLine l).drop 3)).isSome = true
          · rw [if_pos hdup] at h; cases h
          · rw [if_neg hdup] at h
            have hne3 : (stripLine l).drop 3 ≠ [] := by
              apply List.ne_nil_of_length_pos
              rw [List.length_drop]
              omega
            have hrec := ih _ _ _ _ h
            rw [hrec, not_isEmpty_of_ne_nil hne3, declaredScriptNames]
            rw [if_pos hp]
            simp
      · rw [if_neg hp] at h
        have hrec := ih _ _ _ _ h
        rw [hrec, declaredScriptNames]
        rw [if_neg hp]
        simp
    · rw [if_neg hs] at h
      rw [not_isEmpty_of_ne_nil hs]
      by_cases hcm : (stripLine l).length = 0 ∨ (stripLine l).head? = some '#' ∨
          (stripLine l).head? = some '%'
      · rw [if_pos hcm] at h
        have hrec := ih _ _ _ _ h
        rw [hrec, not_isEmpty_of_ne_nil hs, declaredScriptNames]
        rw [if_pos hcm]
      · rw [if_neg hcm] at h
        by_cases hp : contains_pfx dashes (stripLine l) = true
        · rw [if_pos hp] at h
          have hrec := ih _ _ _ _ h
          rw [hrec, declaredScriptNames]
          rw [if_neg hcm, if_pos hp]
          simp
        · rw [if_neg hp] at h
          cases hb : parseBodyLine (stripLine l) with
          | none => rw [hb] at h; cases h
          | some c =>
            rw [hb] at h
            have hrec := ih _ _ _ _ h
            rw [hrec, appendCmd_map_fst, not_isEmpty_of_ne_nil hs, declaredScriptNames]
            rw [if_neg hcm, if_neg hp]

/-- C3: loading is all-or-nothing — for every input text the parser either
signals a parse failure and returns no table at all (`none`), or returns a
table whose scripts are exactly the scripts the text declares, in order; a
partially filled table is never returned. -/
theorem c3_all_or_nothing (lines : List (List Char)) :
    load_scripts lines = none ∨
      ∃ t, load_scripts lines = some t ∧
        t.map Prod.fst = declaredScriptNames false lines := by
  cases h : loadAux [] [] lines with
  | none => exact Or.inl (by simp [load_scripts, h])
  | some st =>
    refine Or.inr ⟨st.1, by simp [load_scripts, h], ?_⟩
    simpa using loadAux_map_fst lines [] [] st.1 st.2 h

/-! ## Unterminated scripts are retained (claim C9) -/

theorem lookupTbl_append (t1 t2 : Table) (k : List Char) :
    lookupTbl (t1 ++ t2) k =
      match lookupTbl t1 k with
      | some v => some v
      | none => lookupTbl t2 k := by
  induction t1 with
  | nil => simp [lookupTbl]
  | cons e rest ih =>
    by_cases he : e.1 = k <;> simp [lookupTbl, he, ih]

theorem lookupTbl_appendCmd_isSome (tbl : Table) (name k : List Char) (c : Cmd) :
    (lookupTbl (appendCmd tbl name c) k).isSome = (lookupTbl tbl k).isSome := by
  induction tbl with
  | nil => rfl
  | cons e rest ih =>
    have hmap : appendCmd (e :: rest) name c =
        (if e.1 = name then (e.1, e.2 ++ [c]) else e) :: appendCmd rest name c := by
      simp [appendCmd]
    rw [hmap]
    by_cases he : e.1 = name
    · rw [if_pos he, lookupTbl, lookupTbl]
      by_cases hk : e.1 = k
      · simp [hk]
      · simp only [hk, if_false, if_neg hk]
        exact ih
    · rw [if_neg he, lookupTbl, lookupTbl]
      by_cases hk : e.1 = k
      · simp [hk]
      · simp only [hk, if_false, if_neg hk]
        exact ih

theorem loadAux_open_isSome : ∀ (ls : List (List Char)) (tbl : Table)
    (sname : List Char) (tbl2 : Table) (sn2 : List Char),
    loadAux tbl sname ls = some (tbl2, sn2) →
    (sname ≠ [] → (lookupTbl tbl sname).isSome = true) →
    sn2 ≠ [] → (lookupTbl tbl2 sn2).isSome = true := by
  intro ls
  induction ls with
  | nil =>
    intro tbl sname tbl2 sn2 h hinv hne
    simp only [loadAux, Option.some.injEq, Prod.mk.injEq] at h
    obtain ⟨h1, h2⟩ := h
    subst h1
    subst h2
    exact hinv hne
  | cons l rest ih =>
    intro tbl sname tbl2 sn2 h hinv hne
    rw [loadAux] at h
    by_cases hs : sname = []
    · rw [if_pos hs] at h
      by_cases hp : contains_pfx dashes (stripLine l) = true
      · rw [if_pos hp] at h
        by_cases hlen : (stripLine l).length < 4
        · rw [if_pos hlen] at h; cases h
        · rw [if_neg hlen] at h
          dsimp only at h
          by_cases hdup : (lookupTbl tbl ((stripLine l).drop 3)).isSome = true
          · rw [if_pos hdup] at h; cases h
          · rw [if_neg hdup] at h
            refine ih _ _ _ _ h (fun _ => ?_) hne
            rw [lookupTbl_append]
            have hnone : lookupTbl tbl ((stripLine l).drop 3) = none := by
              cases hl : lookupTbl tbl ((stripLine l).drop 3) with
              | none => rfl
              | some v => rw [hl] at hdup; simp at hdup
            rw [hnone]
            simp [lookupTbl]
      · rw [if_neg hp] at h
        exact ih _ _ _ _ h hinv hne
    · rw [if_neg hs] at h
      by_cases hcm : (stripLine l).length = 0 ∨ (stripLine l).head? = some '#' ∨
          (stripLine l).head? = some '%'
      · rw [if_pos hcm] at h
        exact ih _ _ _ _ h hinv hne
      · rw [if_neg hcm] at h
        by_cases hp : contains_pfx dashes (stripLine l) = true
        · rw [if_pos hp] at h
          exact ih _ _ _ _ h (fun hx => absurd rfl hx) hne
        · rw [if_neg hp] at h
          cases hb : parseBodyLine (stripLine l) with
          | none => rw [hb] at h; cases h
          | some c =>
            rw [hb] at h
            refine ih _ _ _ _ h (fun _ => ?_) hne
            rw [lookupTbl_appendCmd_isSome]
            exact hinv hs

/-- C9: if the line loop consumes the whole text without a parse error and
ends with a script still open (its `---` opening tag was seen, no closing tag
followed), the load nevertheless succeeds — the returned table is exactly the
loop's final table — and the still-open script is present in it (with the
commands appended so far); no error is signalled for the missing closing
tag. -/
theorem c9_unterminated_script_retained (lines : List (List Char)) (tbl : Table)
    (sname : List Char) (h : loadAux [] [] lines = some (tbl, sname))
    (hs : sname ≠ []) :
    load_scripts lines = some tbl ∧ (lookupTbl tbl sname).isSome = true :=
  ⟨by simp [load_scripts, h],
    loadAux_open_isSome lines [] [] tbl sname h (fun hx => absurd rfl hx) hs⟩

theorem c9_unterminated_script_retained_witness :
    load_scripts ["---A".toList, "5,press,\"a\"".toList] =
        some [("A".toList, [(5, "press".toList, "a".toList)])] ∧
      (lookupTbl [("A".toList, [(5, "press".toList, "a".toList)])] "A".toList).isSome =
        true :=
  c9_unterminated_script_retained ["---A".toList, "5,press,\"a\"".toList]
    [("A".toList, [(5, "press".toList, "a".toList)])] "A".toList (by decide) (by decide)

/-! ## Non-tag lines outside scripts are inert (claim C10) -/

/-- C10: while no script is open, a line that (after stripping) does not begin
with `---` is skipped outright: parsing the rest of the text proceeds from an
unchanged state, so such a line can neither fail the load nor contribute
anything to the table. -/
theorem c10_skip_outside_script (tbl : Table) (l : List Char)
    (ls : List (List Char)) (h : contains_pfx dashes (stripLine l) = false) :
    loadAux tbl [] (l :: ls) = loadAux tbl [] ls := by
  rw [loadAux]
  simp [h]

theorem c10_skip_outside_script_witness :
    loadAux [] [] ["this is not a tag # %".toList, "---A".toList] =
      loadAux [] [] ["---A".toList] :=
  c10_skip_outside_script [] "this is not a tag # %".toList ["---A".toList] (by decide)

/-! ## `move` argument validation (claim C7) -/

/-- C7's failing input: `move("a", "5")` on a 1920×1080 display performs no
backend call (the trace is empty, so `mouse_move` contributes nothing) but
evaluates to Python `None` — a bare `return` — rather than the failure
boolean `False` that the claim, the function's own docstring (`:return: True
if a valid successful move, False otherwise`) and the registry's
boolean-handler contract promise. -/
theorem c7_move_nondigit_returns_none :
    api_move ⟨1920, 1080⟩ "a".toList "5".toList = ([], none) ∧
      (none : Option Bool) ≠ some false := by
  exact ⟨by decide, by decide⟩

/-! ## Unknown script names fail without side effects (claim C8) -/

/-- C8: for every script name that is not a key of the executor's table —
including the cases where the table is `None` or empty — `execute` returns
failure with an empty event trace: no delay is slept and no handler (hence no
backend call) runs. -/
theorem c8_unknown_script_no_effects (env : Env) (scripts : Option Table)
    (name : List Char)
    (h : ∀ tbl, scripts = some tbl → lookupTbl tbl name = none) :
    execute env scripts name = ([], false) := by
  cases scripts with
  | none => rfl
  | some tbl =>
    rw [execute]
    by_cases ht : tbl = []
    · rw [if_pos ht]
    · rw [if_neg ht, h tbl rfl]

theorem c8_unknown_script_no_effects_witness :
    execute ⟨1920, 1080⟩ (some [("A".toList, [(0, "press".toList, "a".toList)])])
        "B".toList = ([], false) :=
  c8_unknown_script_no_effects ⟨1920, 1080⟩
    (some [("A".toList, [(0, "press".toList, "a".toList)])]) "B".toList
    (fun tbl htbl => by
      obtain rfl : [("A".toList, [(0, "press".toList, "a".toList)])] = tbl :=
        Option.some.inj htbl
      decide)

end PyWinKeys

